import Mathlib

/-!
# Shallow embedding of the Employment-Match skill matching engine

This file embeds the algorithmic core of the Employment-Match repository:
`employment_match/match_skills.py` (the candidate-vs-job matcher),
`employment_match/extract_skills.py` and
`employment_match/extract_cv_skills.py` (the two-stage skill standardizer
and its taxonomy-embedding cache), and proves properties of the embedding.

Modelling conventions:
* Real-valued scores are rationals (`ℚ`).  The sentence-embedding model and
  the fuzzy scorer are external collaborators (`sentence-transformers`,
  `rapidfuzz`); they enter as parameters `sim : String → String → ℚ`
  (cosine similarity of the embeddings of two strings, so that
  `cosine_similarity(cv_embeddings, job_embeddings)[i][j] = sim cv[i] job[j]`)
  and `fr : String → String → ℚ` (the fuzzy scorer, 0..100 scale).
* `np.max` of a similarity row is `maxVal`; `np.argmax` returns the first
  index attaining the maximum and is modelled by `List.indexOf` of the
  maximum value.
* Python `list.remove` deletes the first occurrence; together with the
  guard `if x in l: l.remove(x)` it is exactly `List.erase`.
* Python `round(x, 2)` is round-half-to-even at two decimals, `round2`.
* Python `list(set(xs))` produces the distinct elements of `xs` in an
  unspecified order; it is modelled by `List.dedup` (same underlying set).
-/

namespace EmploymentMatch

/-- `np.max` of a similarity row; 0 for the empty row (the source only
applies it to non-empty rows). -/
def maxVal : List ℚ → ℚ
  | [] => 0
  | x :: xs => xs.foldl max x

/-- `np.argmax` of a row: the index of the first occurrence of the maximum
value. -/
def argmaxFirst (row : List ℚ) : Nat := row.indexOf (maxVal row)

/-- Round half to even (banker's rounding), the rule Python's `round` uses. -/
def roundHalfEven (q : ℚ) : ℤ :=
  if q - ⌊q⌋ < 1/2 then ⌊q⌋
  else if q - ⌊q⌋ > 1/2 then ⌊q⌋ + 1
  else if 2 ∣ ⌊q⌋ then ⌊q⌋ else ⌊q⌋ + 1

/-- Python `round(q, 2)`: round half to even at two decimal places. -/
def round2 (q : ℚ) : ℚ := (roundHalfEven (q * 100) : ℚ) / 100

/-- One record appended to `matched_skills` (`match_skills.py` lines 63, 74).
Exactly one of `similarity` / `fuzzy_score` is populated, telling which
stage produced the match. -/
structure MatchRecord where
  cv_skill : String
  job_skill : String
  similarity : Option ℚ
  fuzzy_score : Option ℚ
deriving DecidableEq, Repr

/-- The dictionary returned by `match_skills` (`match_skills.py` lines 84-89). -/
structure MatchResult where
  match_score : ℚ
  matched_skills : List MatchRecord
  missing_skills : List String
  extra_skills : List String
deriving DecidableEq, Repr

/-- Python `str.lower()`, modelled over the ASCII range by lowercasing
every character (the skill strings handled by the engine are ASCII). -/
def pyLower (s : String) : String := String.mk (s.data.map Char.toLower)

namespace MatchSkills

/-- `match_skills.py` line 13. The float literal `0.3` is modelled by the
rational `3/10`; the claims under study never depend on its binary float
representation. -/
def SIMILARITY_THRESHOLD : ℚ := 3/10

/-- `match_skills.py` line 14. -/
def FUZZY_THRESHOLD : ℚ := 80

/-- The score the matcher's fuzzy fallback computes for one pair:
`fuzz.ratio(cv_skill.lower(), job_skill.lower())` (`match_skills.py` line 71).
Both strings are lowercased before the external scorer `fr` sees them. -/
def matcher_fuzzy_score (fr : String → String → ℚ) (c j : String) : ℚ :=
  fr (pyLower c) (pyLower j)

/-- The fuzzy fallback loop (`match_skills.py` lines 70-79): scan the job
skills in list order and stop at the first one whose score reaches
`FUZZY_THRESHOLD` (the `break`), returning that job skill and its score. -/
def fuzzyScan (fr : String → String → ℚ) (c : String) : List String → Option (String × ℚ)
  | [] => none
  | j :: js =>
    if matcher_fuzzy_score fr c j ≥ FUZZY_THRESHOLD then
      some (j, matcher_fuzzy_score fr c j)
    else fuzzyScan fr c js

/-- The local variables of `match_skills` that the loop body reads or
writes (`match_skills.py` lines 34-79).  `cv_skills` and `job_skills` are
the caller's input lists; `missing_skills` / `extra_skills` start as copies
of them (lines 52-53) and are the only lists `remove` is ever applied to. -/
structure MatchLoopState where
  cv_skills : List String
  job_skills : List String
  matched_skills : List MatchRecord
  missing_skills : List String
  extra_skills : List String
deriving DecidableEq, Repr

/-- One iteration of the loop over candidate skills
(`match_skills.py` lines 56-79) for candidate skill `c`.  The similarity
row is `job.map (sim c)`; the embedding stage fires when the row maximum
reaches `SIMILARITY_THRESHOLD`, otherwise the fuzzy fallback scans the job
list. -/
def match_step (sim fr : String → String → ℚ) (job : List String)
    (st : MatchLoopState) (c : String) : MatchLoopState :=
  let row := job.map (sim c)
  let max_sim := maxVal row
  let max_idx := argmaxFirst row
  let job_skill := job.getD max_idx ""
  if max_sim ≥ SIMILARITY_THRESHOLD then
    { st with
      matched_skills := st.matched_skills ++ [⟨c, job_skill, some max_sim, none⟩],
      missing_skills := st.missing_skills.erase job_skill,
      extra_skills := st.extra_skills.erase c }
  else
    match fuzzyScan fr c job with
    | some (j, s) =>
      { st with
        matched_skills := st.matched_skills ++ [⟨c, j, none, some s⟩],
        missing_skills := st.missing_skills.erase j,
        extra_skills := st.extra_skills.erase c }
    | none => st

/-- The state of all local lists after the loop over candidate skills:
`matched_skills` starts empty, `missing_skills` starts as a copy of the job
list, `extra_skills` as a copy of the candidate list
(`match_skills.py` lines 51-53), and the loop body never assigns to
`cv_skills` or `job_skills`. -/
def match_skills_state (sim fr : String → String → ℚ)
    (cv_skills job_skills : List String) : MatchLoopState :=
  cv_skills.foldl (match_step sim fr job_skills)
    ⟨cv_skills, job_skills, [], job_skills, cv_skills⟩

/-- `match_skills` (`match_skills.py` lines 34-89).  If either input list
is empty the degenerate result is returned at once (lines 36-38); otherwise
the loop runs and `match_score = round(len(matched)/len(job)*100, 2)`
(lines 82-89). -/
def match_skills (sim fr : String → String → ℚ)
    (cv_skills job_skills : List String) : MatchResult :=
  if cv_skills = [] ∨ job_skills = [] then
    { match_score := 0, matched_skills := [],
      missing_skills := job_skills, extra_skills := cv_skills }
  else
    let st := match_skills_state sim fr cv_skills job_skills
    { match_score :=
        round2 ((st.matched_skills.length : ℚ) / (job_skills.length : ℚ) * 100),
      matched_skills := st.matched_skills,
      missing_skills := st.missing_skills,
      extra_skills := st.extra_skills }

end MatchSkills

/-- One taxonomy record (`extract_skills.py` lines 65-71): a canonical
skill name and a description. -/
structure EscoSkill where
  skill : String
  description : String
deriving DecidableEq, Repr

namespace ExtractSkills

/-- `extract_skills.py` line 40 (the float literal `0.6` as a rational).
`extract_cv_skills.py` line 41 uses `0.4`; both modules share the same
standardization algorithm, so the threshold is a parameter `τsim` below and
these constants instantiate it. -/
def SIMILARITY_THRESHOLD : ℚ := 3/5

/-- `extract_cv_skills.py` line 41. -/
def CV_SIMILARITY_THRESHOLD : ℚ := 2/5

/-- `extract_skills.py` line 41 and `extract_cv_skills.py` line 42. -/
def FUZZY_THRESHOLD : ℚ := 90

/-- A taxonomy embedding matrix: one row of rationals per encoded text. -/
abbrev Matrix := List (List ℚ)

/-- `numpy`'s `.size`: the total number of elements of the array. -/
def npSize (m : Matrix) : Nat := (m.map List.length).sum

/-- `load_precomputed_embeddings` (`extract_skills.py` lines 114-131).
`persisted = some m` models a file that exists and loads as matrix `m`,
which is returned as-is — the function performs no validation of the
loaded matrix; `persisted = none` models a missing file or one whose load
raises (the corrupt artifact is deleted on disk), in which case the empty
array is returned. -/
def load_precomputed_embeddings (persisted : Option Matrix) : Matrix :=
  match persisted with
  | some m => m
  | none => []

/-- The taxonomy matrix actually used by `extract_skills`
(`extract_skills.py` lines 141-150): the loaded matrix when its `.size` is
non-zero, else the matrix rebuilt by encoding
`skill["skill"] + ": " + skill["description"]` for every taxonomy entry.
`encode` models one `embedder.encode` call on one text. -/
def esco_embeddings_used (persisted : Option Matrix) (esco : List EscoSkill)
    (encode : String → List ℚ) : Matrix :=
  let e := load_precomputed_embeddings persisted
  if npSize e = 0 then
    esco.map (fun s => encode (s.skill ++ ": " ++ s.description))
  else e

/-- How one raw phrase is resolved by the loop body of `extract_skills`
(`extract_skills.py` lines 156-175): via the embedding stage (recording the
taxonomy index), via the fuzzy fallback (recording the chosen taxonomy name
and its fuzzy score), or not at all. -/
inductive StdResolution where
  | viaEmbedding (idx : Nat)
  | viaFuzzy (name : String) (score : ℚ)
  | unresolved
deriving DecidableEq, Repr

/-- The scored candidate list `rapidfuzz.process.extractOne(p, names, ...)`
works through: every taxonomy name paired with its score against the
phrase `p`.  The phrase is passed to the scorer `wr` unmodified — the
standardizer does not lowercase it (`extract_skills.py` line 172). -/
def extractOneCandidates (wr : String → String → ℚ) (p : String)
    (names : List String) : List (String × ℚ) :=
  names.map (fun nm => (nm, wr p nm))

/-- Best-scoring pair, first one winning ties (`process.extractOne`
keeps the earliest choice with the maximal score). -/
def pickBest : List (String × ℚ) → Option (String × ℚ)
  | [] => none
  | c :: cs => some (cs.foldl (fun b x => if x.2 > b.2 then x else b) c)

/-- `rapidfuzz.process.extractOne` with no score cutoff: the best-scoring
taxonomy name for the phrase, `none` only when there are no names. -/
def extractOne (wr : String → String → ℚ) (p : String)
    (names : List String) : Option (String × ℚ) :=
  pickBest (extractOneCandidates wr p names)

/-- One iteration of the standardization loop
(`extract_skills.py` lines 156-175, identically `extract_cv_skills.py`
lines 181-200): `sims` is the phrase's cosine-similarity row against the
taxonomy matrix.  `top_idx` is an index attaining the row maximum (the
source derives it from `np.argsort`; the first maximal index is the
deterministic model).  If the similarity there reaches `τsim` the phrase
resolves via the embedding stage; only otherwise does the fuzzy fallback
run, and it resolves only when the best fuzzy score reaches `τfz`. -/
def standardizeStep (τsim τfz : ℚ) (wr : String → String → ℚ)
    (esco : List EscoSkill) (p : String) (sims : List ℚ) : StdResolution :=
  let top_idx := argmaxFirst sims
  if sims.getD top_idx 0 ≥ τsim then
    .viaEmbedding top_idx
  else
    match extractOne wr p (esco.map (fun s => s.skill)) with
    | some (nm, sc) => if sc ≥ τfz then .viaFuzzy nm sc else .unresolved
    | none => .unresolved

/-- The canonical name one raw phrase contributes to `standardized_skills`
(`extract_skills.py` lines 169, 174): the taxonomy entry's name for an
embedding resolution, the fuzzy winner's name for a fuzzy resolution,
nothing otherwise.  `simsOf p` is the phrase's similarity row (a function
of the phrase alone, since the embedder is deterministic). -/
def resolvePhrase (τsim τfz : ℚ) (wr : String → String → ℚ)
    (esco : List EscoSkill) (simsOf : String → List ℚ) (p : String) :
    Option String :=
  match standardizeStep τsim τfz wr esco p (simsOf p) with
  | .viaEmbedding idx => some ((esco.getD idx ⟨"", ""⟩).skill)
  | .viaFuzzy nm _ => some nm
  | .unresolved => none

/-- The `"standardized"` component of the result of `extract_skills`
(`extract_skills.py` lines 153-179): each raw phrase contributes at most
one canonical name, and the result is deduplicated by
`list(set(standardized_skills))`. -/
def extract_skills_standardized (τsim τfz : ℚ) (wr : String → String → ℚ)
    (esco : List EscoSkill) (simsOf : String → List ℚ)
    (raw_skills : List String) : List String :=
  (raw_skills.filterMap (resolvePhrase τsim τfz wr esco simsOf)).dedup

/-- The `"raw"` component of the result of `extract_skills`
(`extract_skills.py` line 179): `list(set(raw_skills))`. -/
def extract_skills_raw (raw_skills : List String) : List String :=
  raw_skills.dedup

end ExtractSkills

/-! ## Helper lemmas about row maxima and `np.argmax` -/

lemma le_foldl_max (xs : List ℚ) (a : ℚ) : a ≤ xs.foldl max a := by
  induction xs generalizing a with
  | nil => exact le_refl a
  | cons x xs ih => exact le_trans (le_max_left a x) (ih (max a x))

lemma le_foldl_max_of_mem {x : ℚ} {xs : List ℚ} (h : x ∈ xs) (a : ℚ) :
    x ≤ xs.foldl max a := by
  induction xs generalizing a with
  | nil => cases h
  | cons y ys ih =>
    rcases List.mem_cons.1 h with rfl | hmem
    · exact le_trans (le_max_right a x) (le_foldl_max ys (max a x))
    · exact ih hmem (max a y)

lemma foldl_max_mem (xs : List ℚ) (a : ℚ) :
    xs.foldl max a = a ∨ xs.foldl max a ∈ xs := by
  induction xs generalizing a with
  | nil => exact Or.inl rfl
  | cons y ys ih =>
    rcases ih (max a y) with h | h
    · rcases le_total a y with hay | hya
      · right
        rw [List.foldl_cons, h, max_eq_right hay]
        exact List.mem_cons_self y ys
      · left
        rw [List.foldl_cons, h, max_eq_left hya]
    · right
      rw [List.foldl_cons]
      exact List.mem_cons_of_mem y h

lemma maxVal_mem {row : List ℚ} (h : row ≠ []) : maxVal row ∈ row := by
  cases row with
  | nil => exact absurd rfl h
  | cons x xs =>
    rcases foldl_max_mem xs x with h1 | h1
    · rw [maxVal, h1]; exact List.mem_cons_self x xs
    · rw [maxVal]; exact List.mem_cons_of_mem x h1

lemma le_maxVal_of_mem {x : ℚ} {row : List ℚ} (h : x ∈ row) : x ≤ maxVal row := by
  cases row with
  | nil => cases h
  | cons y ys =>
    rcases List.mem_cons.1 h with rfl | hmem
    · exact le_foldl_max ys x
    · exact le_foldl_max_of_mem hmem y

lemma argmaxFirst_lt_length {row : List ℚ} (h : row ≠ []) :
    argmaxFirst row < row.length :=
  List.indexOf_lt_length.2 (maxVal_mem h)

lemma getD_argmaxFirst {row : List ℚ} (h : row ≠ []) :
    row.getD (argmaxFirst row) 0 = maxVal row := by
  have hlt := argmaxFirst_lt_length h
  rw [List.getD_eq_getElem row 0 hlt]
  exact List.getElem_indexOf hlt

/-! ## Helper lemmas about the matcher loop -/

namespace MatchSkills

lemma match_step_cv_job (sim fr : String → String → ℚ) (job : List String)
    (st : MatchLoopState) (c : String) :
    (match_step sim fr job st c).cv_skills = st.cv_skills ∧
    (match_step sim fr job st c).job_skills = st.job_skills := by
  unfold match_step
  by_cases hmax : maxVal (List.map (sim c) job) ≥ SIMILARITY_THRESHOLD
  · simp [hmax]
  · rcases h : fuzzyScan fr c job with _ | ⟨j, s⟩ <;> simp [hmax, h]

lemma match_state_cv_job (sim fr : String → String → ℚ)
    (job : List String) (cv : List String) :
    ∀ st : MatchLoopState,
      (cv.foldl (match_step sim fr job) st).cv_skills = st.cv_skills ∧
      (cv.foldl (match_step sim fr job) st).job_skills = st.job_skills := by
  induction cv with
  | nil => intro st; exact ⟨rfl, rfl⟩
  | cons c cs ih =>
    intro st
    rw [List.foldl_cons]
    rcases ih (match_step sim fr job st c) with ⟨h1, h2⟩
    rcases match_step_cv_job sim fr job st c with ⟨h3, h4⟩
    exact ⟨h1.trans h3, h2.trans h4⟩

lemma match_step_matched_length (sim fr : String → String → ℚ)
    (job : List String) (st : MatchLoopState) (c : String) :
    (match_step sim fr job st c).matched_skills.length ≤
      st.matched_skills.length + 1 := by
  unfold match_step
  by_cases hmax : maxVal (List.map (sim c) job) ≥ SIMILARITY_THRESHOLD
  · simp [hmax]
  · rcases h : fuzzyScan fr c job with _ | ⟨j, s⟩ <;> simp [hmax, h]

lemma match_fold_matched_length (sim fr : String → String → ℚ)
    (job : List String) (cv : List String) :
    ∀ st : MatchLoopState,
      (cv.foldl (match_step sim fr job) st).matched_skills.length ≤
        st.matched_skills.length + cv.length := by
  induction cv with
  | nil => intro st; simp
  | cons c cs ih =>
    intro st
    rw [List.foldl_cons]
    calc (cs.foldl (match_step sim fr job) (match_step sim fr job st c)).matched_skills.length
        ≤ (match_step sim fr job st c).matched_skills.length + cs.length := ih _
      _ ≤ st.matched_skills.length + 1 + cs.length := by
          exact Nat.add_le_add_right (match_step_matched_length sim fr job st c) _
      _ = st.matched_skills.length + (c :: cs).length := by
          simp [List.length_cons]; ring

lemma match_step_embedding (sim fr : String → String → ℚ) (job : List String)
    (st : MatchLoopState) (c : String)
    (h : maxVal (List.map (sim c) job) ≥ SIMILARITY_THRESHOLD) :
    match_step sim fr job st c =
      { st with
        matched_skills := st.matched_skills ++
          [⟨c, job.getD (argmaxFirst (List.map (sim c) job)) "",
            some (maxVal (List.map (sim c) job)), none⟩],
        missing_skills :=
          st.missing_skills.erase (job.getD (argmaxFirst (List.map (sim c) job)) ""),
        extra_skills := st.extra_skills.erase c } := by
  unfold match_step
  simp [h]

lemma match_step_fuzzy_some (sim fr : String → String → ℚ) (job : List String)
    (st : MatchLoopState) (c j : String) (s : ℚ)
    (hmax : ¬ maxVal (List.map (sim c) job) ≥ SIMILARITY_THRESHOLD)
    (hscan : fuzzyScan fr c job = some (j, s)) :
    match_step sim fr job st c =
      { st with
        matched_skills := st.matched_skills ++ [⟨c, j, none, some s⟩],
        missing_skills := st.missing_skills.erase j,
        extra_skills := st.extra_skills.erase c } := by
  unfold match_step
  simp [hmax, hscan]

lemma match_step_fuzzy_none (sim fr : String → String → ℚ) (job : List String)
    (st : MatchLoopState) (c : String)
    (hmax : ¬ maxVal (List.map (sim c) job) ≥ SIMILARITY_THRESHOLD)
    (hscan : fuzzyScan fr c job = none) :
    match_step sim fr job st c = st := by
  unfold match_step
  simp [hmax, hscan]

end MatchSkills

/-! ## Helper lemmas about rounding -/

lemma roundHalfEven_nonneg {q : ℚ} (h : 0 ≤ q) : 0 ≤ roundHalfEven q := by
  have hfl : (0 : ℤ) ≤ ⌊q⌋ := Int.floor_nonneg.2 h
  unfold roundHalfEven
  split
  · exact hfl
  · split
    · omega
    · split
      · exact hfl
      · omega

lemma round2_nonneg {q : ℚ} (h : 0 ≤ q) : 0 ≤ round2 q := by
  unfold round2
  have h1 : (0 : ℤ) ≤ roundHalfEven (q * 100) :=
    roundHalfEven_nonneg (by positivity)
  have h2 : (0 : ℚ) ≤ (roundHalfEven (q * 100) : ℚ) := by exact_mod_cast h1
  positivity

lemma round2_100 : round2 100 = 100 := by
  norm_num [round2, roundHalfEven]

/-! ## The matcher on two copies of the same list -/

namespace MatchSkills

lemma maxVal_map_self (sim : String → String → ℚ) {L : List String} {c : String}
    (hc : c ∈ L) (hrefl : sim c c = 1) (hle : ∀ y, sim c y ≤ 1) :
    maxVal (List.map (sim c) L) = 1 := by
  have hne : List.map (sim c) L ≠ [] := by
    intro h
    rw [List.map_eq_nil_iff] at h
    rw [h] at hc
    cases hc
  apply le_antisymm
  · rcases List.mem_map.1 (maxVal_mem hne) with ⟨y, _, heq⟩
    rw [← heq]
    exact hle y
  · exact le_maxVal_of_mem (List.mem_map.2 ⟨c, hc, hrefl⟩)

lemma argmax_map_self (sim : String → String → ℚ) {L : List String} {c : String}
    (hc : c ∈ L) (hrefl : sim c c = 1) (hle : ∀ y, sim c y ≤ 1)
    (hinj : ∀ y, sim c y = 1 → c = y) :
    L.getD (argmaxFirst (List.map (sim c) L)) "" = c := by
  have hne : List.map (sim c) L ≠ [] := by
    intro h
    rw [List.map_eq_nil_iff] at h
    rw [h] at hc
    cases hc
  have hlt : argmaxFirst (List.map (sim c) L) < (List.map (sim c) L).length :=
    argmaxFirst_lt_length hne
  have hltL : argmaxFirst (List.map (sim c) L) < L.length := by
    rwa [List.length_map] at hlt
  have hval : (List.map (sim c) L).getD (argmaxFirst (List.map (sim c) L)) 0 = 1 := by
    rw [getD_argmaxFirst hne, maxVal_map_self sim hc hrefl hle]
  rw [List.getD_eq_getElem _ 0 hlt, List.getElem_map] at hval
  rw [List.getD_eq_getElem L "" hltL]
  exact (hinj _ hval).symm

lemma match_step_self (sim fr : String → String → ℚ) (L : List String)
    (st : MatchLoopState) (c : String) (hc : c ∈ L)
    (hrefl : ∀ x, sim x x = 1) (hle : ∀ x y, sim x y ≤ 1)
    (hinj : ∀ x y, sim x y = 1 → x = y) :
    match_step sim fr L st c =
      { st with
        matched_skills := st.matched_skills ++ [⟨c, c, some 1, none⟩],
        missing_skills := st.missing_skills.erase c,
        extra_skills := st.extra_skills.erase c } := by
  have hmax : maxVal (List.map (sim c) L) = 1 :=
    maxVal_map_self sim hc (hrefl c) (fun y => hle c y)
  have hjob : L.getD (argmaxFirst (List.map (sim c) L)) "" = c :=
    argmax_map_self sim hc (hrefl c) (fun y => hle c y) (fun y h => hinj c y h)
  rw [match_step_embedding sim fr L st c
    (by rw [hmax]; norm_num [SIMILARITY_THRESHOLD])]
  rw [hmax, hjob]

lemma match_fold_self (sim fr : String → String → ℚ) (L : List String)
    (hrefl : ∀ x, sim x x = 1) (hle : ∀ x y, sim x y ≤ 1)
    (hinj : ∀ x y, sim x y = 1 → x = y) :
    ∀ l : List String, (∀ c ∈ l, c ∈ L) → ∀ st : MatchLoopState,
      st.missing_skills = l → st.extra_skills = l →
      (l.foldl (match_step sim fr L) st).missing_skills = [] ∧
      (l.foldl (match_step sim fr L) st).extra_skills = [] ∧
      (l.foldl (match_step sim fr L) st).matched_skills.length =
        st.matched_skills.length + l.length := by
  intro l
  induction l with
  | nil =>
    intro _ st hm he
    refine ⟨by simpa using hm, by simpa using he, by simp⟩
  | cons a t ih =>
    intro hsub st hm he
    rw [List.foldl_cons]
    have hstep := match_step_self sim fr L st a (hsub a (List.mem_cons_self a t))
      hrefl hle hinj
    have hm' : (match_step sim fr L st a).missing_skills = t := by
      rw [hstep]
      simp [hm]
    have he' : (match_step sim fr L st a).extra_skills = t := by
      rw [hstep]
      simp [he]
    have hl' : (match_step sim fr L st a).matched_skills.length =
        st.matched_skills.length + 1 := by
      rw [hstep]
      simp
    obtain ⟨h1, h2, h3⟩ :=
      ih (fun c hct => hsub c (List.mem_cons_of_mem a hct)) _ hm' he'
    refine ⟨h1, h2, ?_⟩
    rw [h3, hl']
    simp [List.length_cons]
    ring

end MatchSkills

/-! ## Claim theorems -/

namespace MatchSkills

/-- C2: when the candidate list or the job list is empty, `match_skills`
returns `match_score = 0.0`, `matched_skills = []`, `missing_skills` equal
to the job list and `extra_skills` equal to the candidate list, with no
exception; in particular an empty job list yields score 0 regardless of the
candidate list, without dividing by its length. -/
theorem match_empty_contract (sim fr : String → String → ℚ)
    (cv job : List String) (h : cv = [] ∨ job = []) :
    match_skills sim fr cv job =
      { match_score := 0, matched_skills := [],
        missing_skills := job, extra_skills := cv } := by
  unfold match_skills
  rw [if_pos h]

/-- Witness for C2: a non-empty candidate list against an empty job list. -/
theorem match_empty_contract_witness :
    ((["Python"] : List String) = [] ∨ ([] : List String) = []) ∧
    match_skills (fun _ _ => 0) (fun _ _ => 0) ["Python"] [] =
      { match_score := 0, matched_skills := [],
        missing_skills := [], extra_skills := ["Python"] } :=
  ⟨Or.inr rfl, match_empty_contract (fun _ _ => 0) (fun _ _ => 0) ["Python"] [] (Or.inr rfl)⟩

/-- C5: matching a non-empty list against itself yields score 100 with
empty `missing_skills` and `extra_skills`.  The embedder enters through its
similarity function `sim`; the hypotheses state the properties of cosine
similarity over the actual embedder that the claim presupposes:
self-similarity is 1, 1 is the maximal similarity, and distinct skill
strings do not have identical (parallel) embedding vectors. -/
theorem match_self_perfect (sim fr : String → String → ℚ) (L : List String)
    (hne : L ≠ [])
    (hrefl : ∀ x, sim x x = 1) (hle : ∀ x y, sim x y ≤ 1)
    (hinj : ∀ x y, sim x y = 1 → x = y) :
    (match_skills sim fr L L).match_score = 100 ∧
    (match_skills sim fr L L).missing_skills = [] ∧
    (match_skills sim fr L L).extra_skills = [] := by
  have hcond : ¬ (L = [] ∨ L = []) := by simp [hne]
  obtain ⟨h1, h2, h3⟩ := match_fold_self sim fr L hrefl hle hinj L
    (fun c hc => hc) ⟨L, L, [], L, L⟩ rfl rfl
  have hstate : match_skills_state sim fr L L =
      L.foldl (match_step sim fr L) ⟨L, L, [], L, L⟩ := rfl
  have hlen : ((L.length : ℚ)) ≠ 0 := by
    exact_mod_cast Nat.pos_iff_ne_zero.1 (List.length_pos.2 hne)
  unfold match_skills
  rw [if_neg hcond]
  refine ⟨?_, ?_, ?_⟩
  · show round2 (((match_skills_state sim fr L L).matched_skills.length : ℚ) /
      (L.length : ℚ) * 100) = 100
    rw [hstate, h3]
    simp only [List.length_nil, Nat.zero_add]
    rw [div_self hlen, one_mul, round2_100]
  · show (match_skills_state sim fr L L).missing_skills = []
    rw [hstate]
    exact h1
  · show (match_skills_state sim fr L L).extra_skills = []
    rw [hstate]
    exact h2

/-- Witness for C5: the singleton list with a similarity function that is
1 exactly on equal strings. -/
theorem match_self_perfect_witness :
    (match_skills (fun x y => if x = y then 1 else 0) (fun _ _ => 0)
      ["Python"] ["Python"]).match_score = 100 ∧
    (match_skills (fun x y => if x = y then 1 else 0) (fun _ _ => 0)
      ["Python"] ["Python"]).missing_skills = [] ∧
    (match_skills (fun x y => if x = y then 1 else 0) (fun _ _ => 0)
      ["Python"] ["Python"]).extra_skills = [] :=
  match_self_perfect (fun x y => if x = y then 1 else 0) (fun _ _ => 0)
    ["Python"] (by simp)
    (fun x => by simp)
    (fun x y => by by_cases h : x = y <;> simp [h])
    (fun x y hxy => by
      by_cases h : x = y
      · exact h
      · simp [h] at hxy)

/-- First-hit characterization of the fuzzy fallback loop: a successful
scan returns the job skill at the first list position whose lowercased
fuzzy score clears the threshold, together with that score. -/
lemma fuzzyScan_some_spec (fr : String → String → ℚ) (c : String) :
    ∀ (job : List String) (j : String) (s : ℚ), fuzzyScan fr c job = some (j, s) →
      ∃ k, k < job.length ∧ job.getD k "" = j ∧ s = matcher_fuzzy_score fr c j ∧
        s ≥ FUZZY_THRESHOLD ∧
        ∀ i < k, matcher_fuzzy_score fr c (job.getD i "") < FUZZY_THRESHOLD := by
  intro job
  induction job with
  | nil => intro j s h; cases h
  | cons a t ih =>
    intro j s h
    by_cases ha : matcher_fuzzy_score fr c a ≥ FUZZY_THRESHOLD
    · rw [fuzzyScan, if_pos ha] at h
      obtain ⟨rfl, rfl⟩ : a = j ∧ matcher_fuzzy_score fr c a = s := by
        have := Option.some.inj h
        exact ⟨congrArg Prod.fst this, congrArg Prod.snd this⟩
      exact ⟨0, by simp, rfl, rfl, ha, fun i hi => absurd hi (Nat.not_lt_zero i)⟩
    · rw [fuzzyScan, if_neg ha] at h
      obtain ⟨k, hk, hgd, hs, hth, hbelow⟩ := ih j s h
      refine ⟨k + 1, by simpa using hk, by simpa using hgd, hs, hth, ?_⟩
      intro i hi
      cases i with
      | zero => exact lt_of_not_ge ha
      | succ m =>
        have hm : m < k := Nat.lt_of_succ_lt_succ hi
        simpa using hbelow m hm

/-- A failed scan means no job skill clears the threshold. -/
lemma fuzzyScan_none_spec (fr : String → String → ℚ) (c : String) :
    ∀ job : List String, fuzzyScan fr c job = none →
      ∀ j ∈ job, matcher_fuzzy_score fr c j < FUZZY_THRESHOLD := by
  intro job
  induction job with
  | nil => intro _ j hj; cases hj
  | cons a t ih =>
    intro h j hj
    by_cases ha : matcher_fuzzy_score fr c a ≥ FUZZY_THRESHOLD
    · rw [fuzzyScan, if_pos ha] at h; cases h
    · rw [fuzzyScan, if_neg ha] at h
      rcases List.mem_cons.1 hj with rfl | hm
      · exact lt_of_not_ge ha
      · exact ih h j hm

/-- If some job skill clears the threshold, the scan succeeds. -/
lemma fuzzyScan_isSome_of_hit (fr : String → String → ℚ) (c : String) :
    ∀ (job : List String) (j : String), j ∈ job →
      matcher_fuzzy_score fr c j ≥ FUZZY_THRESHOLD →
      ∃ p, fuzzyScan fr c job = some p := by
  intro job
  induction job with
  | nil => intro j hj; cases hj
  | cons a t ih =>
    intro j hj hsc
    by_cases ha : matcher_fuzzy_score fr c a ≥ FUZZY_THRESHOLD
    · exact ⟨(a, matcher_fuzzy_score fr c a), by rw [fuzzyScan, if_pos ha]⟩
    · rcases List.mem_cons.1 hj with rfl | hm
      · exact absurd hsc ha
      · obtain ⟨p, hp⟩ := ih j hm hsc
        exact ⟨p, by rw [fuzzyScan, if_neg ha]; exact hp⟩

/-- C1 (amended): for non-empty inputs, `match_score` is
`round(|matched_skills| / |job| * 100, 2)`; every candidate skill
contributes at most one record, so `|matched_skills| ≤ |candidate|`, the
score is non-negative, and the pre-rounding percentage is bounded by
`|candidate|/|job| * 100`.  (The score is NOT bounded by 100: distinct
candidate skills may each match the same job skill, see the
counterexample.) -/
theorem match_score_formula (sim fr : String → String → ℚ)
    (cv job : List String) (hcv : cv ≠ []) (hjob : job ≠ []) :
    (match_skills sim fr cv job).match_score =
      round2 (((match_skills sim fr cv job).matched_skills.length : ℚ) /
        (job.length : ℚ) * 100) ∧
    (match_skills sim fr cv job).matched_skills.length ≤ cv.length ∧
    0 ≤ (match_skills sim fr cv job).match_score ∧
    ((match_skills sim fr cv job).matched_skills.length : ℚ) /
        (job.length : ℚ) * 100 ≤
      (cv.length : ℚ) / (job.length : ℚ) * 100 := by
  have hcond : ¬ (cv = [] ∨ job = []) := by simp [hcv, hjob]
  have hlen : (match_skills_state sim fr cv job).matched_skills.length ≤ cv.length := by
    have h := match_fold_matched_length sim fr job cv ⟨cv, job, [], job, cv⟩
    simpa [match_skills_state] using h
  have hpos : (0 : ℚ) ≤ (job.length : ℚ) := Nat.cast_nonneg _
  unfold match_skills
  rw [if_neg hcond]
  refine ⟨rfl, hlen, ?_, ?_⟩
  · exact round2_nonneg (by positivity)
  · have hq : ((match_skills_state sim fr cv job).matched_skills.length : ℚ) ≤
        (cv.length : ℚ) := by exact_mod_cast hlen
    gcongr

/-- Counterexample to C1 as stated: two candidate skills whose embeddings
both best-match the single job skill each append a record, so
`match_score = 200`, outside the claimed interval `[0, 100]` (and above the
claimed bound `min(2,1)/1*100 = 100`). -/
theorem match_score_exceeds_100 :
    (match_skills (fun _ _ => 1) (fun _ _ => 0) ["a", "b"] ["j"]).match_score = 200 ∧
    ¬ (match_skills (fun _ _ => 1) (fun _ _ => 0) ["a", "b"] ["j"]).match_score ≤ 100 := by
  have h : (match_skills (fun _ _ => 1) (fun _ _ => 0) ["a", "b"] ["j"]).match_score = 200 := by
    norm_num [match_skills, match_skills_state, match_step, maxVal, argmaxFirst,
      round2, roundHalfEven, SIMILARITY_THRESHOLD, List.indexOf, List.findIdx,
      List.findIdx.go, List.cons_ne_nil]
  exact ⟨h, by rw [h]; norm_num⟩

/-- Witness for the amended C1 at concrete non-empty inputs. -/
theorem match_score_formula_witness :
    (match_skills (fun _ _ => (0:ℚ)) (fun _ _ => (0:ℚ)) ["a"] ["j"]).match_score =
      round2 (((match_skills (fun _ _ => (0:ℚ)) (fun _ _ => (0:ℚ)) ["a"] ["j"]).matched_skills.length : ℚ) /
        ((["j"] : List String).length : ℚ) * 100) ∧
    (match_skills (fun _ _ => (0:ℚ)) (fun _ _ => (0:ℚ)) ["a"] ["j"]).matched_skills.length ≤
      (["a"] : List String).length ∧
    0 ≤ (match_skills (fun _ _ => (0:ℚ)) (fun _ _ => (0:ℚ)) ["a"] ["j"]).match_score ∧
    ((match_skills (fun _ _ => (0:ℚ)) (fun _ _ => (0:ℚ)) ["a"] ["j"]).matched_skills.length : ℚ) /
        ((["j"] : List String).length : ℚ) * 100 ≤
      ((["a"] : List String).length : ℚ) / ((["j"] : List String).length : ℚ) * 100 :=
  match_score_formula (fun _ _ => 0) (fun _ _ => 0) ["a"] ["j"]
    (by decide) (by decide)

/-- C7: when a candidate skill's best embedding similarity is below the
similarity threshold, the fallback scans the job skills in list order and
records the FIRST one whose fuzzy score clears `FUZZY_THRESHOLD` (every
earlier job skill scores strictly below the threshold; later, possibly
higher-scoring ones are never reached), so job-list order decides which job
skill is matched. -/
theorem matcher_fuzzy_first_hit (sim fr : String → String → ℚ)
    (job : List String) (c : String) (st : MatchLoopState)
    (hlow : ¬ maxVal (List.map (sim c) job) ≥ SIMILARITY_THRESHOLD) :
    (fuzzyScan fr c job = none → match_step sim fr job st c = st) ∧
    (∀ j s, fuzzyScan fr c job = some (j, s) →
      match_step sim fr job st c =
        { st with
          matched_skills := st.matched_skills ++ [⟨c, j, none, some s⟩],
          missing_skills := st.missing_skills.erase j,
          extra_skills := st.extra_skills.erase c } ∧
      ∃ k, k < job.length ∧ job.getD k "" = j ∧ s = matcher_fuzzy_score fr c j ∧
        s ≥ FUZZY_THRESHOLD ∧
        ∀ i < k, matcher_fuzzy_score fr c (job.getD i "") < FUZZY_THRESHOLD) :=
  ⟨fun h => match_step_fuzzy_none sim fr job st c hlow h,
   fun j s h => ⟨match_step_fuzzy_some sim fr job st c j s hlow h,
     fuzzyScan_some_spec fr c job j s h⟩⟩

/-- Witness for C7: job list `["xx", "ab", "abc"]` where the second skill
scores 85 and the third scores 95; the scan stops at the second (first
sufficient hit), not the best. -/
theorem matcher_fuzzy_first_hit_witness :
    match_step (fun _ _ => (0:ℚ))
      (fun _ y => if y = "ab" then (85:ℚ) else if y = "abc" then 95 else 0)
      ["xx", "ab", "abc"] ⟨[], [], [], [], []⟩ "ab" =
      ⟨[], [], [⟨"ab", "ab", none, some 85⟩], [], []⟩ :=
  ((matcher_fuzzy_first_hit (fun _ _ => (0:ℚ))
      (fun _ y => if y = "ab" then (85:ℚ) else if y = "abc" then 95 else 0)
      ["xx", "ab", "abc"] "ab" ⟨[], [], [], [], []⟩
      (by norm_num [maxVal, SIMILARITY_THRESHOLD])).2 "ab" 85 (by decide)).1

/-- C8: the matcher is deterministic — identical candidate lists, job lists,
similarity function (stable embeddings) and fuzzy scorer produce identical
`MatchResult` values, matched records and tie-breaks included.  The
embedding is a pure function of these inputs; the thresholds are the module
constants, identical across runs. -/
theorem match_deterministic (sim1 sim2 fr1 fr2 : String → String → ℚ)
    (cv1 cv2 job1 job2 : List String)
    (hsim : sim1 = sim2) (hfr : fr1 = fr2) (hcv : cv1 = cv2) (hjob : job1 = job2) :
    match_skills sim1 fr1 cv1 job1 = match_skills sim2 fr2 cv2 job2 := by
  rw [hsim, hfr, hcv, hjob]

/-- Witness for C8: two runs on the same concrete inputs. -/
theorem match_deterministic_witness :
    (fun (_ _ : String) => (1:ℚ)) = (fun (_ _ : String) => (1:ℚ)) ∧
    (["Python"] : List String) = ["Python"] ∧
    match_skills (fun _ _ => (1:ℚ)) (fun _ _ => (0:ℚ)) ["Python"] ["SQL"] =
      match_skills (fun _ _ => (1:ℚ)) (fun _ _ => (0:ℚ)) ["Python"] ["SQL"] :=
  ⟨rfl, rfl,
    match_deterministic (fun _ _ => (1:ℚ)) (fun _ _ => (1:ℚ))
      (fun _ _ => (0:ℚ)) (fun _ _ => (0:ℚ))
      ["Python"] ["Python"] ["SQL"] ["SQL"] rfl rfl rfl rfl⟩

/-- C9: the matcher never mutates its input lists — after the loop, the
`cv_skills` and `job_skills` locals still hold exactly the elements they
held on entry, in order (`remove` is only ever applied to the copies
`missing_skills` / `extra_skills`); and in the degenerate empty-input case
the returned `missing_skills` / `extra_skills` are the input lists
themselves (the source returns the input list objects, unconnected to any
copy). -/
theorem match_no_input_mutation (sim fr : String → String → ℚ)
    (cv job : List String) :
    (match_skills_state sim fr cv job).cv_skills = cv ∧
    (match_skills_state sim fr cv job).job_skills = job ∧
    (match_skills sim fr [] job).missing_skills = job ∧
    (match_skills sim fr [] job).extra_skills = [] ∧
    (match_skills sim fr cv []).missing_skills = [] ∧
    (match_skills sim fr cv []).extra_skills = cv := by
  obtain ⟨h1, h2⟩ := match_state_cv_job sim fr job cv ⟨cv, job, [], job, cv⟩
  refine ⟨h1, h2, ?_, ?_, ?_, ?_⟩ <;>
    · unfold match_skills
      rw [if_pos (by simp)]

/-- C10: the matcher's fuzzy score is computed on the lowercased pair, so
two skills equal up to letter case score 100 (the fuzzy scorer gives equal
strings score 100) and the scan matches, since `FUZZY_THRESHOLD = 80 ≤ 100`;
the standardizer's fuzzy stage, in contrast, hands the scorer the original
phrase unmodified. -/
theorem matcher_fuzzy_case_insensitive (fr : String → String → ℚ)
    (c j : String) (job : List String)
    (hfr : ∀ s, fr s s = 100)
    (hcase : pyLower c = pyLower j) (hj : j ∈ job) :
    matcher_fuzzy_score fr c j = 100 ∧
    FUZZY_THRESHOLD ≤ (100 : ℚ) ∧
    (∃ p, fuzzyScan fr c job = some p) ∧
    ∀ (wr : String → String → ℚ) (p : String) (names : List String),
      ExtractSkills.extractOneCandidates wr p names =
        names.map (fun nm => (nm, wr p nm)) := by
  have hscore : matcher_fuzzy_score fr c j = 100 := by
    unfold matcher_fuzzy_score
    rw [hcase, hfr]
  refine ⟨hscore, by norm_num [FUZZY_THRESHOLD], ?_, fun wr p names => rfl⟩
  exact fuzzyScan_isSome_of_hit fr c job j hj
    (by rw [hscore]; norm_num [FUZZY_THRESHOLD])

/-- Witness for C10: `"Python"` vs `"python"`. -/
theorem matcher_fuzzy_case_insensitive_witness :
    matcher_fuzzy_score (fun x y => if x = y then (100:ℚ) else 0) "Python" "python" = 100 ∧
    FUZZY_THRESHOLD ≤ (100 : ℚ) ∧
    (∃ p, fuzzyScan (fun x y => if x = y then (100:ℚ) else 0) "Python" ["python"] = some p) ∧
    ∀ (wr : String → String → ℚ) (p : String) (names : List String),
      ExtractSkills.extractOneCandidates wr p names =
        names.map (fun nm => (nm, wr p nm)) :=
  matcher_fuzzy_case_insensitive (fun x y => if x = y then (100:ℚ) else 0)
    "Python" "python" ["python"]
    (fun s => by simp)
    (by decide)
    (by decide)

end MatchSkills

namespace ExtractSkills

/-- C3: in the standardizer, whenever the best embedding similarity of a
phrase reaches the similarity threshold — equality included — the phrase
resolves via the embedding stage to the entry at an index attaining the
row maximum, and the fuzzy fallback is not invoked; a fuzzy resolution can
only arise when the best similarity is strictly below the threshold.
`τsim` ranges over both call sites' constants (`SIMILARITY_THRESHOLD = 3/5`
for job descriptions, `CV_SIMILARITY_THRESHOLD = 2/5` for CVs). -/
theorem std_embedding_stage_priority (τsim τfz : ℚ) (wr : String → String → ℚ)
    (esco : List EscoSkill) (p : String) (sims : List ℚ) (hne : sims ≠ []) :
    (maxVal sims ≥ τsim →
      standardizeStep τsim τfz wr esco p sims =
        StdResolution.viaEmbedding (argmaxFirst sims)) ∧
    sims.getD (argmaxFirst sims) 0 = maxVal sims ∧
    (∀ nm sc, standardizeStep τsim τfz wr esco p sims =
        StdResolution.viaFuzzy nm sc → maxVal sims < τsim) := by
  have hval := getD_argmaxFirst hne
  have hemb : ∀ _ : maxVal sims ≥ τsim,
      standardizeStep τsim τfz wr esco p sims =
        StdResolution.viaEmbedding (argmaxFirst sims) := by
    intro h
    unfold standardizeStep
    dsimp only
    rw [hval, if_pos h]
  refine ⟨hemb, hval, ?_⟩
  intro nm sc hstep
  by_contra hge
  push_neg at hge
  rw [hemb hge] at hstep
  cases hstep

/-- Witness for C3 at the boundary: a similarity row whose maximum equals
the job-extraction threshold exactly resolves via the embedding stage. -/
theorem std_embedding_stage_priority_witness :
    maxVal [(3:ℚ)/5] ≥ SIMILARITY_THRESHOLD ∧
    standardizeStep SIMILARITY_THRESHOLD FUZZY_THRESHOLD (fun _ _ => 0)
      [⟨"SQL", "Query relational databases using SQL."⟩] "sql" [(3:ℚ)/5] =
      StdResolution.viaEmbedding (argmaxFirst [(3:ℚ)/5]) := by
  have h : maxVal [(3:ℚ)/5] ≥ SIMILARITY_THRESHOLD := by
    norm_num [maxVal, SIMILARITY_THRESHOLD]
  exact ⟨h, (std_embedding_stage_priority SIMILARITY_THRESHOLD FUZZY_THRESHOLD
    (fun _ _ => 0) [⟨"SQL", "Query relational databases using SQL."⟩] "sql"
    [(3:ℚ)/5] (by decide)).1 h⟩

/-- Counterexample to C4 as stated: a successfully loaded non-empty
persisted matrix is used without any row-count validation.  Here the
loaded matrix has 1 row while the taxonomy has 2 entries, yet the matrix
used for standardization is the stale 1-row artifact, not a rebuilt
2-row one. -/
theorem stale_embeddings_used_unvalidated :
    npSize (load_precomputed_embeddings (some [[1]])) ≠ 0 ∧
    (esco_embeddings_used (some [[1]])
      [⟨"Python programming", "Write and debug code in Python."⟩,
       ⟨"SQL", "Query relational databases using SQL."⟩]
      (fun _ => [0])).length = 1 ∧
    ([⟨"Python programming", "Write and debug code in Python."⟩,
      ⟨"SQL", "Query relational databases using SQL."⟩] : List EscoSkill).length = 2 :=
  ⟨by decide, rfl, rfl⟩

/-- C4 (amended): only a missing or corrupt artifact (whose load fails and
which is then deleted), or a loaded matrix of `numpy` size 0, triggers the
rebuild; the rebuild encodes `name + ": " + description` for every
taxonomy entry and therefore yields exactly one row per entry.  No
row-count validation is performed on a successfully loaded non-empty
matrix. -/
theorem esco_embeddings_rebuild_on_empty (persisted : Option Matrix)
    (esco : List EscoSkill) (encode : String → List ℚ)
    (h : npSize (load_precomputed_embeddings persisted) = 0) :
    esco_embeddings_used persisted esco encode =
      esco.map (fun s => encode (s.skill ++ ": " ++ s.description)) ∧
    (esco_embeddings_used persisted esco encode).length = esco.length := by
  have h1 : esco_embeddings_used persisted esco encode =
      esco.map (fun s => encode (s.skill ++ ": " ++ s.description)) := by
    unfold esco_embeddings_used
    rw [if_pos h]
  exact ⟨h1, by rw [h1, List.length_map]⟩

/-- Witness for the amended C4: a missing artifact rebuilds to one row per
taxonomy entry. -/
theorem esco_embeddings_rebuild_on_empty_witness :
    npSize (load_precomputed_embeddings none) = 0 ∧
    (esco_embeddings_used none
      [⟨"SQL", "Query relational databases using SQL."⟩]
      (fun _ => [1])).length = 1 :=
  ⟨rfl, (esco_embeddings_rebuild_on_empty none
    [⟨"SQL", "Query relational databases using SQL."⟩] (fun _ => [1]) rfl).2⟩

/-- C6: for every non-empty raw-phrase list, the deduplicated standardized
output is no larger than the deduplicated raw output: each raw phrase
resolves to at most one canonical name, and equal phrases resolve alike. -/
theorem standardized_le_raw (τsim τfz : ℚ) (wr : String → String → ℚ)
    (esco : List EscoSkill) (simsOf : String → List ℚ)
    (raw_skills : List String) (_hne : raw_skills ≠ []) :
    (extract_skills_standardized τsim τfz wr esco simsOf raw_skills).length ≤
      (extract_skills_raw raw_skills).length := by
  show (raw_skills.filterMap (resolvePhrase τsim τfz wr esco simsOf)).dedup.length ≤
    raw_skills.dedup.length
  rw [← List.card_toFinset, ← List.card_toFinset]
  have hsub : (raw_skills.filterMap (resolvePhrase τsim τfz wr esco simsOf)).toFinset ⊆
      raw_skills.toFinset.image
        (fun p => (resolvePhrase τsim τfz wr esco simsOf p).getD p) := by
    intro s hs
    rw [List.mem_toFinset, List.mem_filterMap] at hs
    obtain ⟨p, hp, hgp⟩ := hs
    rw [Finset.mem_image]
    refine ⟨p, List.mem_toFinset.2 hp, ?_⟩
    rw [hgp]
    rfl
  exact le_trans (Finset.card_le_card hsub) Finset.card_image_le

/-- Witness for C6 on a concrete one-element phrase list. -/
theorem standardized_le_raw_witness :
    (["Python"] : List String) ≠ [] ∧
    (extract_skills_standardized 0 0 (fun _ _ => 0) [] (fun _ => []) ["Python"]).length ≤
      (extract_skills_raw ["Python"]).length :=
  ⟨by decide, standardized_le_raw 0 0 (fun _ _ => 0) [] (fun _ => []) ["Python"] (by decide)⟩

end ExtractSkills

end EmploymentMatch
